import Mathlib

/-
Verification of the fullcalendar version-bump tool.

The repository holds two variants of one release script:
  * scripts/update-version.js        (the current script), and
  * an earlier variant of the same script (an unnamed source file).

The development below is a shallow embedding of those scripts.  JSON
documents are modelled as ordered association lists (the order in which
JSON.parse delivers the keys of a package.json object), the file system is
modelled as the collection of manifest documents the script can reach, and
the git interaction is modelled as a small state (set of dirty paths and
set of existing tags) together with an event trace recording, in order,
every file write and every git command the script issues.

Modelling notes, recorded once here:
  * findProjectRoot is assumed to succeed: a `Workspace` value represents
    the discovered project root.  Discovery failure is outside the claims.
  * On-disk manifest files are identified with their parsed documents.
    A write is recorded as an event carrying the exact string written.
  * `git status --porcelain` prints a non-empty report exactly when the
    dirty-path list is non-empty; a file write appends its path to that
    list; a successful `git commit` (after `git add <specs>`) removes the
    staged paths from it.  `git commit` fails when no staged path is
    dirty; `git add` fails when one of its path specs matches no file
    (the shell passes an unmatched glob through literally and git then
    rejects the unknown pathspec).  The exact stderr text of a failing
    git command is external to the program and is abstracted by a fixed
    message.
-/

namespace UV

/-- JSON values as produced by JSON.parse: object fields are kept in the
order in which they appear in the file. -/
inductive JVal where
  | str : String → JVal
  | num : Int → JVal
  | bool : Bool → JVal
  | null : JVal
  | arr : List JVal → JVal
  | obj : List (String × JVal) → JVal

/-- A parsed package.json document: its top-level object. -/
abbrev Manifest := List (String × JVal)

/-- Property lookup `json[k]`: first binding of the key wins (JSON.parse
never yields duplicate keys). -/
def lookupKey (k : String) : Manifest → Option JVal
  | [] => none
  | (k', v) :: rest => if k' = k then some v else lookupKey k rest

/-- Property assignment `json[k] = v` on an ordered object: an existing
key keeps its position and gets the new value (the first binding; parse
output never holds a second one), a fresh key is appended at the end
(JavaScript property-order semantics for non-index string keys). -/
def setKey (k : String) (v : JVal) : Manifest → Manifest
  | [] => [(k, v)]
  | p :: rest => if p.1 = k then (k, v) :: rest else p :: setKey k v rest

/-- The internal package scope tested with `dep.startsWith(...)` in both
scripts [update-version.js line 53]. -/
def internalScope : String := "@teamdiverst/fullcalendar-"

/-- Character-list transcription of JavaScript's String.prototype.startsWith:
true exactly when the second list leads the first. -/
def charsLeadWith : List Char → List Char → Bool
  | _, [] => true
  | [], _ :: _ => false
  | c :: cs, p :: ps => c = p && charsLeadWith cs ps

/-- `s.startsWith(pre)` of JavaScript. -/
def strStartsWith (s pre : String) : Bool := charsLeadWith s.data pre.data

/-- The three dependency-map field names [update-version.js line 49]. -/
def depTypes : List String := ["dependencies", "devDependencies", "peerDependencies"]

/-- Body of the per-dependency-map loop [update-version.js lines 51-57]:
inside an object value every entry whose key starts with the internal
scope is set to a tilde range; any non-object value is left unchanged
(the script's truthiness test plus Object.keys yields no matching key for
such values, so it never assigns into them). -/
def rewriteDepMap (version : String) : JVal → JVal
  | JVal.obj entries =>
      JVal.obj (entries.map fun p =>
        if strStartsWith p.1 internalScope then (p.1, JVal.str ("~" ++ version)) else p)
  | v => v

/-- The depTypes.forEach loop [update-version.js lines 49-58]: each of the
three dependency maps present in the document is rewritten in place. -/
def rewriteDeps (version : String) (d : Manifest) : Manifest :=
  d.map fun p => if depTypes.contains p.1 then (p.1, rewriteDepMap version p.2) else p

/-- updatePackageJsonFile's document mutation [update-version.js lines
42-58]: set the version property, then rewrite the dependency maps. -/
def updatePackageJson (version : String) (d : Manifest) : Manifest :=
  rewriteDeps version (setKey "version" (JVal.str version) d)

/-! ### The version grammar

Both scripts validate the argument against the regular expression

  `^(\d+)\.(\d+)\.(\d+)(?:-([a-zA-Z0-9-]+(?:\.[a-zA-Z0-9-]+)*))?$`

[update-version.js line 79].  The transcription below is a deterministic
left-to-right matcher; it is exact because every greedy piece (`\d+` and
`[a-zA-Z0-9-]+`) is followed either by a character outside its own class
(`.` after `\d+`, `.` or end after the identifier class, whose class does
contain `-` but not `.`) or by the end of the string, so no backtracking
can ever produce a different outcome. -/

/-- One character of the class `[a-zA-Z0-9-]`. -/
def isIdentChar (c : Char) : Bool := c.isAlpha || c.isDigit || c = '-'

/-- Consume `\d+`; fails when no leading digit. -/
def matchNum (cs : List Char) : Option (List Char) :=
  if (cs.takeWhile Char.isDigit).isEmpty then none
  else some (cs.dropWhile Char.isDigit)

/-- One-symbol-at-a-time recognizer for `[a-zA-Z0-9-]+(?:\.[a-zA-Z0-9-]+)*$`:
the flag records whether the current segment already holds at least one
character of the class; a dot may only close a non-empty segment and opens
a fresh one; the end of input is accepted only with a non-empty segment. -/
def segsAux (seen : Bool) : List Char → Bool
  | [] => seen
  | c :: rest =>
    if isIdentChar c then segsAux true rest
    else if c = '.' then seen && segsAux false rest
    else false

/-- Match `[a-zA-Z0-9-]+(?:\.[a-zA-Z0-9-]+)*$`. -/
def matchSegs (cs : List Char) : Bool := segsAux false cs

/-- The full regex, anchored at both ends, over the character list. -/
def semverChars (cs : List Char) : Bool :=
  match matchNum cs with
  | none => false
  | some r1 =>
    match r1 with
    | '.' :: r2 =>
      match matchNum r2 with
      | none => false
      | some r3 =>
        match r3 with
        | '.' :: r4 =>
          match matchNum r4 with
          | none => false
          | some r5 =>
            match r5 with
            | [] => true
            | '-' :: r6 => matchSegs r6
            | _ :: _ => false
        | _ => false
    | _ => false

/-- regex.test(version) [update-version.js lines 79-80]. -/
def semverTest (s : String) : Bool := semverChars s.toList

/-! ### Argument handling -/

/-- Outcome of the argument-handling preamble shared by both scripts. -/
inductive ArgResult where
  | help
  | missing
  | invalid (v : String)
  | proceed (v : String)
deriving DecidableEq

/-- Transcription of main's argument handling in scripts/update-version.js
lines 64-85: `version = args[0]`; help flags are served first; a missing or
empty first argument is the falsy `!version` case; then the regex test.
An absent args[0] (undefined) and an empty string are both falsy, which
`args.head?.getD ""` collapses faithfully. -/
def argHandle (args : List String) : ArgResult :=
  let version := args.head?.getD ""
  if args.contains "-h" || args.contains "--help" then ArgResult.help
  else if version = "" then ArgResult.missing
  else if semverTest version then ArgResult.proceed version
  else ArgResult.invalid version

/-- Transcription of main's argument handling in the earlier script
variant (the unnamed source file), lines 38-58; the code is
character-for-character the same argument logic. -/
def argHandleB (args : List String) : ArgResult :=
  let version := args.head?.getD ""
  if args.contains "-h" || args.contains "--help" then ArgResult.help
  else if version = "" then ArgResult.missing
  else if semverTest version then ArgResult.proceed version
  else ArgResult.invalid version

/-- Exit code demanded by each argument-handling outcome in
scripts/update-version.js: process.exit() with no argument after help
(code 0), process.exit(1) for a missing or invalid version; none when the
run proceeds. -/
def argExit : ArgResult → Option Nat
  | ArgResult.help => some 0
  | ArgResult.missing => some 1
  | ArgResult.invalid _ => some 1
  | ArgResult.proceed _ => none

/-- Exit code demanded by each argument-handling outcome in the earlier
script variant: identical exit calls. -/
def argExitB : ArgResult → Option Nat
  | ArgResult.help => some 0
  | ArgResult.missing => some 1
  | ArgResult.invalid _ => some 1
  | ArgResult.proceed _ => none

/-! ### Serialization: JSON.stringify(value, null, 2) -/

/-- Lowercase hex digit. -/
def hexDigit (n : Nat) : Char :=
  if n < 10 then Char.ofNat ('0'.toNat + n) else Char.ofNat ('a'.toNat + (n - 10))

/-- Four lowercase hex digits, as in a \u escape. -/
def hex4 (n : Nat) : String :=
  String.mk [hexDigit (n / 4096 % 16), hexDigit (n / 256 % 16),
             hexDigit (n / 16 % 16), hexDigit (n % 16)]

/-- JSON string escaping of one character, as JSON.stringify performs it:
quote, backslash and the named control characters get two-character
escapes, other control characters a \u escape, everything else is kept. -/
def quoteChar (c : Char) : String :=
  if c = '"' then "\\\""
  else if c = '\\' then "\\\\"
  else if c = '\n' then "\\n"
  else if c = '\r' then "\\r"
  else if c = '\t' then "\\t"
  else if c = '\x08' then "\\b"
  else if c = '\x0c' then "\\f"
  else if c.toNat < 32 then "\\u" ++ hex4 c.toNat
  else String.singleton c

/-- A JSON string literal with its surrounding quotes. -/
def quoteStr (s : String) : String :=
  "\"" ++ String.join (s.toList.map quoteChar) ++ "\""

/-- Indentation of `n` spaces. -/
def indentStr (n : Nat) : String := String.mk (List.replicate n ' ')

mutual

/-- JSON.stringify with a numeric gap (2 in the script) at nesting level
`lvl`: empty composites print inline, non-empty ones one entry per line,
each entry indented one level deeper, the closing bracket at the current
level. -/
def stringifyV (gap lvl : Nat) : JVal → String
  | JVal.str s => quoteStr s
  | JVal.num n => toString n
  | JVal.bool b => if b then "true" else "false"
  | JVal.null => "null"
  | JVal.arr xs =>
    match xs with
    | [] => "[]"
    | _ :: _ =>
      "[\n" ++ stringifyItems gap (lvl + 1) xs ++ "\n" ++ indentStr (gap * lvl) ++ "]"
  | JVal.obj fields =>
    match fields with
    | [] => "\x7b\x7d"
    | _ :: _ =>
      "\x7b\n" ++ stringifyFields gap (lvl + 1) fields ++ "\n" ++ indentStr (gap * lvl) ++ "\x7d"

/-- Array elements, comma-and-newline separated, each indented. -/
def stringifyItems (gap lvl : Nat) : List JVal → String
  | [] => ""
  | [x] => indentStr (gap * lvl) ++ stringifyV gap lvl x
  | x :: y :: rest =>
    indentStr (gap * lvl) ++ stringifyV gap lvl x ++ ",\n" ++ stringifyItems gap lvl (y :: rest)

/-- Object fields, comma-and-newline separated, each indented. -/
def stringifyFields (gap lvl : Nat) : List (String × JVal) → String
  | [] => ""
  | [(k, x)] => indentStr (gap * lvl) ++ quoteStr k ++ ": " ++ stringifyV gap lvl x
  | (k, x) :: y :: rest =>
    indentStr (gap * lvl) ++ quoteStr k ++ ": " ++ stringifyV gap lvl x ++ ",\n"
      ++ stringifyFields gap lvl (y :: rest)

end

/-- The string written for a manifest: `JSON.stringify(json, null, 2) + '\n'`
[update-version.js lines 60 and 111-112]. -/
def stringifyFile (d : Manifest) : String := stringifyV 2 0 (JVal.obj d) ++ "\n"

/-- Bool test used below in place of a (non-derivable) decidable equality. -/
def JVal.isNull : JVal → Bool
  | JVal.null => true
  | _ => false

/-- JavaScript template-literal display of a value, as `${oldVersion}`
renders it: strings verbatim, numbers and booleans printed, null as
"null", an object as "[object Object]", an array as its elements joined
by commas with null elements blank. -/
def jsDisplay : JVal → String
  | JVal.str s => s
  | JVal.num n => toString n
  | JVal.bool b => if b then "true" else "false"
  | JVal.null => "null"
  | JVal.obj _ => "[object Object]"
  | JVal.arr xs =>
    String.intercalate "," (xs.attach.map fun y =>
      if y.1.isNull then "" else jsDisplay y.1)
termination_by v => sizeOf v
decreasing_by
  have h := List.sizeOf_lt_of_mem y.2
  simp only [JVal.arr.sizeOf_spec]
  omega

/-! ### The workspace and the git state -/

/-- One directory entry of `packages/`, as the script sees it: its name,
whether statSync reports a directory, and the parsed content of
`<entry>/package.json` when that file exists (a manifest can only exist
under a directory entry). -/
structure PkgEntry where
  name : String
  isDir : Bool
  manifest : Option Manifest

/-- The discovered project root: the root manifest (when the file
exists), the entries of `packages/` in readdir order, and the manifest of
the fixed `bundle` directory (when that file exists). -/
structure Workspace where
  rootManifest : Option Manifest
  packages : List PkgEntry
  bundleManifest : Option Manifest

/-- Git as the script observes it: the paths with uncommitted changes
(so `git status --porcelain` prints something exactly when this list is
non-empty) and the existing tag names. -/
structure GitState where
  dirty : List String
  tags : List String

/-- One observable action of a run, in program order. -/
inductive Event where
  | writeFile (path content : String)
  | gitStatus
  | gitTagList (tag : String)
  | gitAdd (pathspecs : List String)
  | gitCommit (msg : String)
  | gitTag (tag : String)
deriving DecidableEq

/-- Everything a finished run exposes: the process exit code, the event
trace, stdout and stderr lines, and the final file-system and git
states. -/
structure RunResult where
  exitCode : Nat
  events : List Event
  out : List String
  err : List String
  fs : Workspace
  git : GitState

/-- The (path, content) pair of a write event. -/
def writeOfEvent : Event → Option (String × String)
  | Event.writeFile p c => some (p, c)
  | _ => none

/-- The file-write events of a run, as (path, content) pairs. -/
def writesOf (r : RunResult) : List (String × String) :=
  r.events.filterMap writeOfEvent

/-- Relative path of a package manifest under `packages/`. -/
def pkgPath (name : String) : String := "packages/" ++ name ++ "/package.json"

/-- The three pathspecs of the `git add` call [update-version.js line 132]. -/
def stageSpecs : List String :=
  ["package.json", "packages/*/package.json", "bundle/package.json"]

/-- The files those pathspecs match in a workspace: the root manifest if
present, each `packages/<dir>/package.json` that exists, and the bundle
manifest if present. -/
def stagedPaths (ws : Workspace) : List String :=
  (match ws.rootManifest with
   | some _ => ["package.json"]
   | none => []) ++
  ((ws.packages.filter fun e => e.isDir && e.manifest.isSome).map fun e => pkgPath e.name) ++
  (match ws.bundleManifest with
   | some _ => ["bundle/package.json"]
   | none => [])

/-- `git add` succeeds exactly when every pathspec matches something. -/
def gitAddOk (ws : Workspace) : Bool :=
  ws.rootManifest.isSome
    && ws.packages.any (fun e => e.isDir && e.manifest.isSome)
    && ws.bundleManifest.isSome

/-- The workspace after the mutation phase [update-version.js lines
105-130]: the root manifest gets only its version property set; every
directory entry of `packages/` that has a manifest, and the bundle
manifest, get the full updatePackageJsonFile treatment. -/
def mutatedWs (version : String) (ws : Workspace) : Workspace :=
  { rootManifest := ws.rootManifest.map (setKey "version" (JVal.str version)),
    packages := ws.packages.map fun e =>
      if e.isDir then { e with manifest := e.manifest.map (updatePackageJson version) } else e,
    bundleManifest := ws.bundleManifest.map (updatePackageJson version) }

/-- The writes of the mutation phase, in program order: root first
[lines 105-114], then each package directory in readdir order, then
bundle [lines 116-130]; entries whose manifest file is missing are
skipped. -/
def writtenFiles (version : String) (ws : Workspace) : List (String × String) :=
  (match ws.rootManifest with
   | some d => [("package.json", stringifyFile (setKey "version" (JVal.str version) d))]
   | none => []) ++
  ((ws.packages.filter fun e => e.isDir).filterMap fun e =>
    e.manifest.map fun d => (pkgPath e.name, stringifyFile (updatePackageJson version d))) ++
  (match ws.bundleManifest with
   | some d => [("bundle/package.json", stringifyFile (updatePackageJson version d))]
   | none => [])

/-- The same writes as trace events. -/
def writeEvents (version : String) (ws : Workspace) : List Event :=
  (writtenFiles version ws).map fun pc => Event.writeFile pc.1 pc.2

/-- Stdout lines of the mutation phase. -/
def mutationLogs (version : String) (ws : Workspace) : List String :=
  (match ws.rootManifest with
   | some _ => ["Updated root package.json to " ++ version]
   | none => []) ++
  ((ws.packages.filter fun e => e.isDir).filterMap fun e =>
    e.manifest.map fun _ => "Updated package " ++ e.name) ++
  (match ws.bundleManifest with
   | some _ => ["Updated package bundle"]
   | none => [])

/-- The old version as the commit message renders it: null when the root
manifest file is missing (oldVersion keeps its initial null), undefined
when the version property is absent, otherwise the template display of
the property's value [update-version.js lines 89, 108-109, 134]. -/
def oldVersionText (ws : Workspace) : String :=
  match ws.rootManifest with
  | none => "null"
  | some d =>
    match lookupKey "version" d with
    | none => "undefined"
    | some v => jsDisplay v

/-- The commit message [update-version.js line 134], built from the root
manifest's version value captured before mutation. -/
def commitMsg (version : String) (ws : Workspace) : String :=
  "Updated version from " ++ oldVersionText ws ++ " to " ++ version

/-- The help text of scripts/update-version.js (lines 8-24). -/
def helpText : String :=
  "\nScript to update the version of Fullcalendar packages\n\nIt takes a version as an argument and:\n1. Updates version field in root package.json and all packages/[name]/package.json\n2. Updates all @teamdiverst/fullcalendar-dependencies to the new version\n3. Creates a git commit for the version update\n4. Creates git tag \"v<version>\"\n\nUsage:\n scripts/update-version.js <version>\n or\n npm run update-version <version>\n\nNote: After updating the version, remember to run 'npm install' to install\nthe updated dependencies and update the lock file with the new version.\n"

/-- The body of the try block once both precondition checks have passed
[update-version.js lines 105-141]: mutate the manifests, then
`git add`, `git commit`, `git tag`, each aborting the run with exit code
1 when it fails (the catch block at lines 142-145). -/
def runChecked (version : String) (ws : Workspace) (git : GitState) : RunResult :=
  let tag := "v" ++ version
  let ws2 := mutatedWs version ws
  let evts := [Event.gitStatus, Event.gitTagList tag] ++ writeEvents version ws
  let git1 : GitState := { git with dirty := git.dirty ++ (writtenFiles version ws).map Prod.fst }
  if !gitAddOk ws2 then
    { exitCode := 1,
      events := evts ++ [Event.gitAdd stageSpecs],
      out := mutationLogs version ws,
      err := ["Error: git add failed"],
      fs := ws2, git := git1 }
  else
    let staged := stagedPaths ws2
    if (git1.dirty.filter fun p => staged.contains p).isEmpty then
      { exitCode := 1,
        events := evts ++ [Event.gitAdd stageSpecs, Event.gitCommit (commitMsg version ws)],
        out := mutationLogs version ws,
        err := ["Error: git commit failed"],
        fs := ws2, git := git1 }
    else
      { exitCode := 0,
        events := evts ++ [Event.gitAdd stageSpecs, Event.gitCommit (commitMsg version ws),
                           Event.gitTag tag],
        out := mutationLogs version ws ++
          ["Committed changes on affected files",
           "Created git tag " ++ tag,
           "\nSuccessfully updated all packages from " ++ oldVersionText ws ++ " to " ++ version],
        err := [],
        fs := ws2,
        git := { dirty := git1.dirty.filter fun p => !staged.contains p,
                 tags := git.tags ++ [tag] } }

/-- The whole of main in scripts/update-version.js: argument handling
(lines 64-85), then the working-tree status check (lines 93-97), then
the tag-existence check (lines 100-103), then the checked body. -/
def run (args : List String) (ws : Workspace) (git : GitState) : RunResult :=
  match argHandle args with
  | ArgResult.help =>
    { exitCode := 0, events := [], out := [helpText], err := [], fs := ws, git := git }
  | ArgResult.missing =>
    { exitCode := 1, events := [], out := [],
      err := ["Error: No version provided", helpText], fs := ws, git := git }
  | ArgResult.invalid v =>
    { exitCode := 1, events := [], out := [],
      err := ["Error: Invalid SemVer format \"" ++ v ++ "\"",
              "Expected format: X.Y.Z-pre-release.build",
              "Examples: 6.1.19, 6.1.19-alpha, 6.1.19-a11y.1"],
      fs := ws, git := git }
  | ArgResult.proceed version =>
    if !git.dirty.isEmpty then
      { exitCode := 1, events := [Event.gitStatus], out := [],
        err := ["Error: There are uncommitted changes in the repository",
                "Please commit or stash your changes before running this script"],
        fs := ws, git := git }
    else if git.tags.contains ("v" ++ version) then
      { exitCode := 1, events := [Event.gitStatus, Event.gitTagList ("v" ++ version)],
        out := [],
        err := ["Error: Git tag \"v" ++ version ++ "\" already exists"],
        fs := ws, git := git }
    else runChecked version ws git

/-! ### Helper lemmas -/

theorem argHandle_single_valid (v : String) (hv : semverTest v = true) :
    argHandle [v] = ArgResult.proceed v := by
  have h1 : v ≠ "-h" := by rintro rfl; exact absurd hv (by decide)
  have h2 : v ≠ "--help" := by rintro rfl; exact absurd hv (by decide)
  have h3 : v ≠ "" := by rintro rfl; exact absurd hv (by decide)
  simp [argHandle, h3, hv, Ne.symm h1, Ne.symm h2]

theorem lookupKey_setKey_self (k : String) (v : JVal) (d : Manifest) :
    lookupKey k (setKey k v d) = some v := by
  induction d with
  | nil => simp [setKey, lookupKey]
  | cons p d ih =>
    by_cases hp : p.1 = k
    · simp [setKey, hp, lookupKey]
    · simp [setKey, hp, lookupKey, ih]

theorem lookupKey_setKey_ne (k k' : String) (v : JVal) (d : Manifest) (h : k' ≠ k) :
    lookupKey k' (setKey k v d) = lookupKey k' d := by
  have hkk : ¬(k = k') := fun e => h e.symm
  induction d with
  | nil => simp [setKey, lookupKey, hkk]
  | cons p d ih =>
    by_cases hp : p.1 = k
    · have hne : ¬(p.1 = k') := fun e => h (by rw [← e, hp])
      simp [setKey, hp, lookupKey, hne, hkk]
    · simp only [setKey, if_neg hp]
      by_cases hq : p.1 = k'
      · simp [lookupKey, hq]
      · simp [lookupKey, hq, ih]

theorem keys_setKey (k : String) (v : JVal) (d : Manifest) :
    (setKey k v d).map Prod.fst = d.map Prod.fst ∨
      (setKey k v d).map Prod.fst = d.map Prod.fst ++ [k] := by
  induction d with
  | nil => right; simp [setKey]
  | cons p d ih =>
    by_cases hp : p.1 = k
    · left; simp [setKey, hp]
    · rcases ih with ih | ih
      · left; simp [setKey, hp, ih]
      · right; simp [setKey, hp, ih]

theorem keys_rewriteDeps (version : String) (d : Manifest) :
    (rewriteDeps version d).map Prod.fst = d.map Prod.fst := by
  unfold rewriteDeps
  rw [List.map_map]
  apply List.map_congr_left
  intro p _
  by_cases hp : p.1 ∈ depTypes
  · simp [hp, Function.comp]
  · simp [hp, Function.comp]

theorem rewriteDeps_cons (version : String) (p : String × JVal) (d : Manifest) :
    rewriteDeps version (p :: d) =
      (if depTypes.contains p.1 then (p.1, rewriteDepMap version p.2) else p)
        :: rewriteDeps version d := rfl

theorem lookupKey_rewriteDeps (version : String) (k : String) (d : Manifest) :
    lookupKey k (rewriteDeps version d) =
      (lookupKey k d).map
        (fun val => if depTypes.contains k then rewriteDepMap version val else val) := by
  induction d with
  | nil => simp [rewriteDeps, lookupKey]
  | cons p d ih =>
    rw [rewriteDeps_cons]
    by_cases hd : depTypes.contains p.1 = true
    · rw [if_pos hd]
      have hd' : p.1 ∈ depTypes := by simpa using hd
      by_cases hp : p.1 = k
      · subst hp
        simp [lookupKey, hd, hd']
      · simp only [lookupKey, if_neg hp, ih]
    · rw [if_neg hd]
      have hd' : ¬(p.1 ∈ depTypes) := by simpa using hd
      by_cases hp : p.1 = k
      · subst hp
        simp [lookupKey, hd, hd']
      · simp only [lookupKey, if_neg hp, ih]

theorem lookupKey_updatePackageJson_version (version : String) (d : Manifest) :
    lookupKey "version" (updatePackageJson version d) = some (JVal.str version) := by
  unfold updatePackageJson
  rw [lookupKey_rewriteDeps]
  rw [lookupKey_setKey_self]
  simp [depTypes]

theorem rewriteDepMap_obj_inv (version : String) (x : JVal) (es : List (String × JVal))
    (h : rewriteDepMap version x = JVal.obj es) :
    ∃ es₀, x = JVal.obj es₀ ∧
      es = es₀.map fun p =>
        if strStartsWith p.1 internalScope then (p.1, JVal.str ("~" ++ version)) else p := by
  cases x with
  | obj es₀ =>
    refine ⟨es₀, rfl, ?_⟩
    simpa [rewriteDepMap] using h.symm
  | str s => exact absurd h (by simp [rewriteDepMap])
  | num n => exact absurd h (by simp [rewriteDepMap])
  | bool b => exact absurd h (by simp [rewriteDepMap])
  | null => exact absurd h (by simp [rewriteDepMap])
  | arr xs => exact absurd h (by simp [rewriteDepMap])

theorem tilde_rewriteDeps (version : String) (d : Manifest) :
    ∀ k val, (k, val) ∈ rewriteDeps version d → k ∈ depTypes →
      ∀ es, val = JVal.obj es →
        ∀ dk dv, (dk, dv) ∈ es → strStartsWith dk internalScope = true →
          dv = JVal.str ("~" ++ version) := by
  intro k val hmem hk es hval dk dv hdm hds
  unfold rewriteDeps at hmem
  rcases List.mem_map.mp hmem with ⟨p, hp, heq⟩
  by_cases hc : depTypes.contains p.1 = true
  · rw [if_pos hc] at heq
    have hv : val = rewriteDepMap version p.2 := (Prod.mk.injEq _ _ _ _ ▸ heq).2.symm
    rw [hv] at hval
    rcases rewriteDepMap_obj_inv version p.2 es hval with ⟨es₀, _, hes⟩
    rw [hes] at hdm
    rcases List.mem_map.mp hdm with ⟨q, _, hq⟩
    by_cases hqs : strStartsWith q.1 internalScope = true
    · rw [if_pos hqs] at hq
      exact ((Prod.mk.injEq _ _ _ _).mp hq).2.symm
    · rw [if_neg hqs] at hq
      have : q.1 = dk := congrArg Prod.fst hq
      rw [this] at hqs
      exact absurd hds hqs
  · rw [if_neg hc] at heq
    have hkp : p.1 = k := congrArg Prod.fst heq
    have : depTypes.contains k = true := by simpa using hk
    rw [hkp] at hc
    exact absurd this hc

theorem tilde_updatePackageJson (version : String) (d : Manifest) :
    ∀ k val, (k, val) ∈ updatePackageJson version d → k ∈ depTypes →
      ∀ es, val = JVal.obj es →
        ∀ dk dv, (dk, dv) ∈ es → strStartsWith dk internalScope = true →
          dv = JVal.str ("~" ++ version) :=
  fun k val hmem => tilde_rewriteDeps version _ k val hmem

theorem pkgWrites_fst (version : String) (l : List PkgEntry) :
    ((l.filter fun e => e.isDir).filterMap fun e =>
        e.manifest.map fun d => (pkgPath e.name, stringifyFile (updatePackageJson version d))).map
          Prod.fst
      = (l.filter fun e => e.isDir && e.manifest.isSome).map fun e => pkgPath e.name := by
  induction l with
  | nil => simp
  | cons e l ih =>
    by_cases hd : e.isDir = true
    · cases hm : e.manifest with
      | none => simp [List.filter_cons, hd, List.filterMap_cons, hm, ih]
      | some d => simp [List.filter_cons, hd, List.filterMap_cons, hm, ih]
    · simp [List.filter_cons, hd, ih]

theorem writtenFiles_fst (version : String) (ws : Workspace) :
    (writtenFiles version ws).map Prod.fst = stagedPaths ws := by
  unfold writtenFiles stagedPaths
  cases ws.rootManifest <;> cases ws.bundleManifest <;>
    simp [pkgWrites_fst]

theorem pkgStaged_map (version : String) (l : List PkgEntry) :
    ((l.map fun e =>
        if e.isDir then { e with manifest := e.manifest.map (updatePackageJson version) } else e).filter
          fun e => e.isDir && e.manifest.isSome).map (fun e => pkgPath e.name)
      = (l.filter fun e => e.isDir && e.manifest.isSome).map fun e => pkgPath e.name := by
  induction l with
  | nil => simp
  | cons e l ih =>
    by_cases hd : e.isDir = true
    · cases hm : e.manifest with
      | none => simp [List.filter_cons, hd, hm, ih]
      | some d => simp [List.filter_cons, hd, hm, ih]
    · simp [List.filter_cons, hd, ih]

theorem stagedPaths_mutatedWs (version : String) (ws : Workspace) :
    stagedPaths (mutatedWs version ws) = stagedPaths ws := by
  unfold stagedPaths mutatedWs
  cases ws.rootManifest <;> cases ws.bundleManifest <;>
    simp [pkgStaged_map]

theorem pkgAny_map (version : String) (l : List PkgEntry) :
    ((l.map fun e =>
        if e.isDir then { e with manifest := e.manifest.map (updatePackageJson version) } else e).any
          fun e => e.isDir && e.manifest.isSome)
      = l.any fun e => e.isDir && e.manifest.isSome := by
  induction l with
  | nil => simp
  | cons e l ih =>
    by_cases hd : e.isDir = true
    · cases hm : e.manifest with
      | none => simp [hd, hm, ih]
      | some d => simp [hd, hm, ih]
    · simp [hd, ih]

theorem gitAddOk_mutatedWs (version : String) (ws : Workspace) :
    gitAddOk (mutatedWs version ws) = gitAddOk ws := by
  unfold gitAddOk mutatedWs
  cases ws.rootManifest <;> cases ws.bundleManifest <;>
    simp [pkgAny_map version ws.packages]

theorem filterMap_writeOfEvent (l : List (String × String)) :
    l.filterMap (writeOfEvent ∘ fun pc => Event.writeFile pc.1 pc.2) = l := by
  induction l with
  | nil => rfl
  | cons pc l ih => simp [List.filterMap_cons, writeOfEvent, Function.comp, ih]

theorem contains_of_mem {l : List String} {a : String} (h : a ∈ l) : l.contains a = true :=
  List.elem_eq_true_of_mem h

theorem filter_not_contains_self (l : List String) :
    (l.filter fun p => !l.contains p) = [] := by
  rw [List.filter_eq_nil_iff]
  intro a ha
  simp [ha]

theorem stagedPaths_root (ws : Workspace) (d : Manifest) (h : ws.rootManifest = some d) :
    ∃ rest, stagedPaths ws = "package.json" :: rest := by
  unfold stagedPaths
  rw [h]
  exact ⟨_, rfl⟩

theorem commit_check_nonempty (ws : Workspace) (hroot : ws.rootManifest.isSome = true) :
    ((stagedPaths ws).filter fun p => (stagedPaths ws).contains p).isEmpty = false := by
  rcases Option.isSome_iff_exists.mp hroot with ⟨d, hd⟩
  rcases stagedPaths_root ws d hd with ⟨rest, hs⟩
  rw [hs]
  have hc : ("package.json" :: rest).contains "package.json" = true := by simp
  simp [List.filter_cons, hc]

/-- Characterization of a successful run: when the version is valid and
the run exits 0, every guard must have passed, and the run result is the
full success record (in particular the final tree is clean and the new
tag exists). -/
theorem run_succ (v : String) (ws : Workspace) (git : GitState)
    (hv : semverTest v = true) (h0 : (run [v] ws git).exitCode = 0) :
    git.dirty = [] ∧ git.tags.contains ("v" ++ v) = false ∧ gitAddOk ws = true ∧
    run [v] ws git =
      { exitCode := 0,
        events := [Event.gitStatus, Event.gitTagList ("v" ++ v)] ++ writeEvents v ws
          ++ [Event.gitAdd stageSpecs, Event.gitCommit (commitMsg v ws), Event.gitTag ("v" ++ v)],
        out := mutationLogs v ws ++
          ["Committed changes on affected files",
           "Created git tag " ++ ("v" ++ v),
           "\nSuccessfully updated all packages from " ++ oldVersionText ws ++ " to " ++ v],
        err := [],
        fs := mutatedWs v ws,
        git := { dirty := [], tags := git.tags ++ ["v" ++ v] } } := by
  have hA := argHandle_single_valid v hv
  by_cases hd : git.dirty.isEmpty = true
  case neg =>
    have hd' : git.dirty.isEmpty = false := by simpa using hd
    exfalso
    simp [run, hA, hd'] at h0
  by_cases ht : git.tags.contains ("v" ++ v) = true
  case pos =>
    have htm : ("v" ++ v) ∈ git.tags := by simpa using ht
    exfalso
    simp [run, hA, hd, htm] at h0
  have ht' : git.tags.contains ("v" ++ v) = false := by simpa using ht
  have htm' : ¬(("v" ++ v) ∈ git.tags) := by simpa using ht
  have hdirty : git.dirty = [] := by simpa using hd
  have hrc : run [v] ws git = runChecked v ws git := by
    simp [run, hA, hd, htm']
  rw [hrc] at h0
  by_cases hadd : gitAddOk (mutatedWs v ws) = true
  case neg =>
    have hadd' : gitAddOk (mutatedWs v ws) = false := by simpa using hadd
    exfalso
    simp [runChecked, hadd'] at h0
  have haddws : gitAddOk ws = true := by
    rw [← gitAddOk_mutatedWs v ws]
    exact hadd
  have hroot : ws.rootManifest.isSome = true := by
    rcases h1 : ws.rootManifest with _ | d
    · rw [gitAddOk, h1] at haddws
      simp at haddws
    · simp [h1]
  have hcommit :
      ((git.dirty ++ (writtenFiles v ws).map Prod.fst).filter
        fun p => (stagedPaths (mutatedWs v ws)).contains p).isEmpty = false := by
    simp only [hdirty, writtenFiles_fst, stagedPaths_mutatedWs, List.nil_append]
    exact commit_check_nonempty ws hroot
  have hfinaldirty :
      ((git.dirty ++ (writtenFiles v ws).map Prod.fst).filter
        fun p => !(stagedPaths (mutatedWs v ws)).contains p) = [] := by
    simp only [hdirty, writtenFiles_fst, stagedPaths_mutatedWs, List.nil_append]
    exact filter_not_contains_self (stagedPaths ws)
  refine ⟨hdirty, ht', haddws, ?_⟩
  rw [hrc]
  simp only [runChecked, hadd, Bool.not_true, Bool.false_eq_true, if_false, hcommit]
  simp [hfinaldirty]
  constructor
  · intro a haa
    rw [hdirty] at haa
    cases haa
  · intro a x hax
    have hmm : a ∈ (writtenFiles v ws).map Prod.fst :=
      List.mem_map.mpr ⟨(a, x), hax, rfl⟩
    rw [writtenFiles_fst] at hmm
    rw [stagedPaths_mutatedWs]
    exact hmm

/-! ### Concrete fixtures used by witnesses and counterexamples -/

/-- A root manifest holding an internal-scope dependency next to an
external one. -/
def rootMan : Manifest :=
  [("name", JVal.str "root"),
   ("version", JVal.str "1.0.0"),
   ("dependencies", JVal.obj
     [("@teamdiverst/fullcalendar-core", JVal.str "^1.0.0"),
      ("lodash", JVal.str "4.0.0")])]

/-- One sub-package manifest with an internal peer dependency. -/
def coreMan : Manifest :=
  [("version", JVal.str "1.0.0"),
   ("peerDependencies", JVal.obj
     [("@teamdiverst/fullcalendar-daygrid", JVal.str "~1.0.0")])]

/-- A small but complete workspace: root, one package directory with a
manifest, and a bundle manifest. -/
def wsA : Workspace :=
  { rootManifest := some rootMan,
    packages := [⟨"core", true, some coreMan⟩],
    bundleManifest := some [("version", JVal.str "1.0.0")] }

/-- A clean git state with no tags. -/
def gitA : GitState := { dirty := [], tags := [] }

/-- A git state with one uncommitted change. -/
def gitDirtyA : GitState := { dirty := ["notes.txt"], tags := [] }

/-- A clean git state in which the target tag already exists. -/
def gitTaggedA : GitState := { dirty := [], tags := ["v2.0.0"] }

/-! ### Claim C10 -/

/-- Claim C10: the two script variants implement identical argument
handling — for every argument list they agree on the outcome (help shown,
missing-version error, grammar pass or fail) and demand the same exit
code in each non-proceeding case. -/
theorem c10_arg_equivalence (args : List String) :
    argHandle args = argHandleB args ∧
    argExit (argHandle args) = argExitB (argHandleB args) := by
  have h : argHandle args = argHandleB args := rfl
  refine ⟨h, ?_⟩
  rw [← h]
  cases argHandle args <;> rfl

/-! ### Claim C3 -/

/-- Claim C3: with a valid version, a dirty working tree or a
pre-existing tag makes the run exit 1 having written no file and changed
no manifest; the status query always runs, the dirty case stops before
the tag query ever runs (its whole trace is the status query), and the
pre-existing-tag case's whole trace is the status query followed by the
tag query — both checks therefore precede every write, status first. -/
theorem c3_preconditions (v : String) (ws : Workspace) (git : GitState)
    (hv : semverTest v = true) :
    ((git.dirty ≠ [] ∨ git.tags.contains ("v" ++ v) = true) →
      (run [v] ws git).exitCode = 1 ∧ writesOf (run [v] ws git) = [] ∧
      (run [v] ws git).fs = ws ∧ Event.gitStatus ∈ (run [v] ws git).events) ∧
    (git.dirty ≠ [] → (run [v] ws git).events = [Event.gitStatus]) ∧
    (git.dirty = [] → git.tags.contains ("v" ++ v) = true →
      (run [v] ws git).events = [Event.gitStatus, Event.gitTagList ("v" ++ v)]) := by
  have hA := argHandle_single_valid v hv
  by_cases hnil : git.dirty = []
  · have hd : git.dirty.isEmpty = true := by simp [hnil]
    refine ⟨?_, ?_, ?_⟩
    · rintro (hcon | ht)
      · exact absurd hnil hcon
      · have htm : ("v" ++ v) ∈ git.tags := by simpa using ht
        refine ⟨?_, ?_, ?_, ?_⟩ <;> simp [run, hA, hd, htm, writesOf, writeOfEvent]
    · intro hcon
      exact absurd hnil hcon
    · intro _ ht
      have htm : ("v" ++ v) ∈ git.tags := by simpa using ht
      simp [run, hA, hd, htm]
  · have hd : git.dirty.isEmpty = false := by
      rcases h : git.dirty with _ | _
      · exact absurd h hnil
      · simp
    refine ⟨?_, ?_, ?_⟩
    · intro _
      refine ⟨?_, ?_, ?_, ?_⟩ <;> simp [run, hA, hd, writesOf, writeOfEvent]
    · intro _
      simp [run, hA, hd]
    · intro h
      exact absurd h hnil

/-- Witness for C3 at a concrete dirty workspace. -/
theorem c3_preconditions_witness :
    (run ["2.0.0"] wsA gitDirtyA).exitCode = 1 ∧
    writesOf (run ["2.0.0"] wsA gitDirtyA) = [] ∧
    (run ["2.0.0"] wsA gitDirtyA).fs = wsA ∧
    Event.gitStatus ∈ (run ["2.0.0"] wsA gitDirtyA).events :=
  (c3_preconditions "2.0.0" wsA gitDirtyA (by decide)).1 (Or.inl (by decide))

/-! ### Claim C4 -/

/-- Claim C4: after a successful run with version v, the tree is clean
(every modified file was staged and committed) and the tag exists, so a
second run with the same version passes the status check, fails at the
tag-existence check (its whole trace is exactly the two checks), exits 1
and writes nothing. -/
theorem c4_second_run (v : String) (ws : Workspace) (git : GitState)
    (hv : semverTest v = true) (h0 : (run [v] ws git).exitCode = 0) :
    (run [v] ws git).git.dirty = [] ∧
    ("v" ++ v) ∈ (run [v] ws git).git.tags ∧
    (run [v] (run [v] ws git).fs (run [v] ws git).git).exitCode = 1 ∧
    writesOf (run [v] (run [v] ws git).fs (run [v] ws git).git) = [] ∧
    (run [v] (run [v] ws git).fs (run [v] ws git).git).events
      = [Event.gitStatus, Event.gitTagList ("v" ++ v)] := by
  have hA := argHandle_single_valid v hv
  rcases run_succ v ws git hv h0 with ⟨hd, ht, hadd, heq⟩
  have hdirty1 : (run [v] ws git).git.dirty = [] := by rw [heq]
  have htags1 : ("v" ++ v) ∈ (run [v] ws git).git.tags := by
    rw [heq]
    simp
  refine ⟨hdirty1, htags1, ?_, ?_, ?_⟩ <;>
    · rw [heq]
      simp [run, hA, writesOf, writeOfEvent]

/-- Witness for C4 at a concrete workspace on which the first run
succeeds. -/
theorem c4_second_run_witness :
    (run ["2.0.0"] wsA gitA).git.dirty = [] ∧
    ("v" ++ "2.0.0") ∈ (run ["2.0.0"] wsA gitA).git.tags ∧
    (run ["2.0.0"] (run ["2.0.0"] wsA gitA).fs (run ["2.0.0"] wsA gitA).git).exitCode = 1 ∧
    writesOf (run ["2.0.0"] (run ["2.0.0"] wsA gitA).fs (run ["2.0.0"] wsA gitA).git) = [] ∧
    (run ["2.0.0"] (run ["2.0.0"] wsA gitA).fs (run ["2.0.0"] wsA gitA).git).events
      = [Event.gitStatus, Event.gitTagList ("v" ++ "2.0.0")] :=
  c4_second_run "2.0.0" wsA gitA (by decide) rfl

/-! ### Claim C7 -/

/-- Claim C7: a successful run's trace is exactly the two checks, the
manifest writes, then one git add of the root manifest, the packages
glob and the bundle manifest, then one commit whose message names the
root's pre-mutation version and the target, and only then the tag
creation. -/
theorem c7_commit_and_tag (v : String) (ws : Workspace) (git : GitState)
    (hv : semverTest v = true) (h0 : (run [v] ws git).exitCode = 0) :
    (run [v] ws git).events =
      [Event.gitStatus, Event.gitTagList ("v" ++ v)] ++ writeEvents v ws
        ++ [Event.gitAdd ["package.json", "packages/*/package.json", "bundle/package.json"],
            Event.gitCommit ("Updated version from " ++ oldVersionText ws ++ " to " ++ v),
            Event.gitTag ("v" ++ v)] := by
  rcases run_succ v ws git hv h0 with ⟨_, _, _, heq⟩
  rw [heq]
  simp [stageSpecs, commitMsg]

/-- Witness for C7 at a concrete workspace. -/
theorem c7_commit_and_tag_witness :
    (run ["2.0.0"] wsA gitA).events =
      [Event.gitStatus, Event.gitTagList ("v" ++ "2.0.0")] ++ writeEvents "2.0.0" wsA
        ++ [Event.gitAdd ["package.json", "packages/*/package.json", "bundle/package.json"],
            Event.gitCommit ("Updated version from " ++ oldVersionText wsA ++ " to " ++ "2.0.0"),
            Event.gitTag ("v" ++ "2.0.0")] :=
  c7_commit_and_tag "2.0.0" wsA gitA (by decide) rfl

/-! ### Claim C1 -/

/-- Every internal-scope entry of every dependency map of a manifest
carries the tilde range of the given version. -/
def depsTilde (version : String) (d : Manifest) : Prop :=
  ∀ k val, (k, val) ∈ d → k ∈ depTypes → ∀ es, val = JVal.obj es →
    ∀ dk dv, (dk, dv) ∈ es → strStartsWith dk internalScope = true →
      dv = JVal.str ("~" ++ version)

set_option maxRecDepth 4000 in
/-- Claim C1 as stated is false: on a clean, untagged workspace whose
root manifest holds an internal-scope dependency, a successful run with
a valid target version leaves that root dependency entry at its old
value instead of the tilde target range — the script only sets the root
manifest's version field and never rewrites the root's dependency maps
[update-version.js lines 105-114]. -/
theorem c1_counterexample :
    (run ["2.0.0"] wsA gitA).exitCode = 0 ∧
    gitA.dirty = [] ∧ gitA.tags = [] ∧ semverTest "2.0.0" = true ∧
    (run ["2.0.0"] wsA gitA).fs.rootManifest.getD [] =
      [("name", JVal.str "root"),
       ("version", JVal.str "2.0.0"),
       ("dependencies", JVal.obj
         [("@teamdiverst/fullcalendar-core", JVal.str "^1.0.0"),
          ("lodash", JVal.str "4.0.0")])] ∧
    strStartsWith "@teamdiverst/fullcalendar-core" internalScope = true ∧
    "^1.0.0" ≠ "~" ++ "2.0.0" :=
  ⟨rfl, rfl, rfl, by decide, rfl, by decide, by decide⟩

/-- Claim C1 (amended): after a successful run with a valid target
version, the root manifest is its old document with only the version
property set to the target (its dependency maps untouched), while every
package-directory manifest and the bundle manifest end with version
equal to the target and every internal-scope dependency entry equal to
"~" followed by the target. -/
theorem c1_amended (v : String) (ws : Workspace) (git : GitState)
    (hv : semverTest v = true) (h0 : (run [v] ws git).exitCode = 0) :
    (∀ d, ws.rootManifest = some d →
      (run [v] ws git).fs.rootManifest = some (setKey "version" (JVal.str v) d) ∧
      lookupKey "version" (setKey "version" (JVal.str v) d) = some (JVal.str v)) ∧
    (∀ e, e ∈ (run [v] ws git).fs.packages → e.isDir = true →
      ∀ d, e.manifest = some d →
        lookupKey "version" d = some (JVal.str v) ∧ depsTilde v d) ∧
    (∀ d, (run [v] ws git).fs.bundleManifest = some d →
      lookupKey "version" d = some (JVal.str v) ∧ depsTilde v d) := by
  rcases run_succ v ws git hv h0 with ⟨_, _, _, heq⟩
  have hfs : (run [v] ws git).fs = mutatedWs v ws := by rw [heq]
  rw [hfs]
  refine ⟨?_, ?_, ?_⟩
  · intro d hd
    exact ⟨by simp [mutatedWs, hd], lookupKey_setKey_self _ _ _⟩
  · intro e he hdir d hman
    rcases List.mem_map.mp (by simpa [mutatedWs] using he) with ⟨e₀, _, hfe⟩
    by_cases hdir₀ : e₀.isDir = true
    · rw [if_pos hdir₀] at hfe
      rw [← hfe] at hman
      rcases Option.map_eq_some'.mp hman with ⟨d₀, _, hd₀⟩
      rw [← hd₀]
      exact ⟨lookupKey_updatePackageJson_version v d₀,
        fun k val hm hk es hes dk dv hdm hds =>
          tilde_updatePackageJson v d₀ k val hm hk es hes dk dv hdm hds⟩
    · rw [if_neg hdir₀] at hfe
      rw [← hfe] at hdir
      exact absurd hdir hdir₀
  · intro d hd
    have hd' : ws.bundleManifest.map (updatePackageJson v) = some d := by
      simpa [mutatedWs] using hd
    rcases Option.map_eq_some'.mp hd' with ⟨d₀, _, hd₀⟩
    rw [← hd₀]
    exact ⟨lookupKey_updatePackageJson_version v d₀,
      fun k val hm hk es hes dk dv hdm hds =>
        tilde_updatePackageJson v d₀ k val hm hk es hes dk dv hdm hds⟩

/-- Witness for the amended C1 at a concrete workspace. -/
theorem c1_amended_witness :
    (run ["2.0.0"] wsA gitA).fs.rootManifest
        = some (setKey "version" (JVal.str "2.0.0") rootMan) ∧
    lookupKey "version" (setKey "version" (JVal.str "2.0.0") rootMan)
        = some (JVal.str "2.0.0") :=
  (c1_amended "2.0.0" wsA gitA (by decide) rfl).1 rootMan rfl

/-! ### Claim C5 -/

/-- Claim C5: a successful run writes exactly the root manifest, the
manifest of each directory entry of packages/ that has one (entries
without a manifest are skipped), and the bundle manifest — in that order
and nothing else. -/
theorem c5_write_set (v : String) (ws : Workspace) (git : GitState)
    (hv : semverTest v = true) (h0 : (run [v] ws git).exitCode = 0) :
    (writesOf (run [v] ws git)).map Prod.fst =
      "package.json" ::
        (((ws.packages.filter fun e => e.isDir && e.manifest.isSome).map
            fun e => pkgPath e.name)
          ++ ["bundle/package.json"]) := by
  rcases run_succ v ws git hv h0 with ⟨_, _, hadd, heq⟩
  have hw : writesOf (run [v] ws git) = writtenFiles v ws := by
    rw [heq]
    simp [writesOf, writeEvents, List.filterMap_append, writeOfEvent, filterMap_writeOfEvent]
  rw [hw, writtenFiles_fst]
  have hadd' := hadd
  unfold gitAddOk at hadd'
  simp only [Bool.and_eq_true] at hadd'
  obtain ⟨⟨hr, _⟩, hb⟩ := hadd'
  rcases Option.isSome_iff_exists.mp hr with ⟨dr, hdr⟩
  rcases Option.isSome_iff_exists.mp hb with ⟨db, hdb⟩
  unfold stagedPaths
  rw [hdr, hdb]
  simp

/-- Witness for C5 at a concrete workspace. -/
theorem c5_write_set_witness :
    (writesOf (run ["2.0.0"] wsA gitA)).map Prod.fst =
      "package.json" ::
        (((wsA.packages.filter fun e => e.isDir && e.manifest.isSome).map
            fun e => pkgPath e.name)
          ++ ["bundle/package.json"]) :=
  c5_write_set "2.0.0" wsA gitA (by decide) rfl

/-! ### Claim C2 -/

theorem gitStatus_mem_runChecked (v : String) (ws : Workspace) (git : GitState) :
    Event.gitStatus ∈ (runChecked v ws git).events := by
  simp only [runChecked]
  by_cases hadd : gitAddOk (mutatedWs v ws) = true
  · rw [if_neg (by rw [hadd]; decide)]
    by_cases hcm : ((git.dirty ++ (writtenFiles v ws).map Prod.fst).filter
        fun p => (stagedPaths (mutatedWs v ws)).contains p).isEmpty = true
    · rw [if_pos hcm]
      simp
    · rw [if_neg hcm]
      simp
  · have hpos : (!gitAddOk (mutatedWs v ws)) = true := by
      rcases Bool.eq_false_or_eq_true (gitAddOk (mutatedWs v ws)) with h | h
      · exact absurd h hadd
      · rw [h]
        rfl
    rw [if_pos hpos]
    simp

/-- Claim C2 as stated is false: the argument "-h" does not match the
version grammar, yet the tool exits with code 0 (the help path), not 1. -/
theorem c2_counterexample :
    semverTest "-h" = false ∧ (run ["-h"] wsA gitA).exitCode = 0 :=
  ⟨by decide, rfl⟩

/-- Claim C2 (amended): the run proceeds past validation (reaches the
first git query) exactly when the argument matches the grammar; every
non-matching argument other than the help flags "-h" and "--help" makes
the tool exit 1 without writing any file; the help flags also write
nothing but exit 0. -/
theorem c2_amended (s : String) (ws : Workspace) (git : GitState) :
    (Event.gitStatus ∈ (run [s] ws git).events ↔ semverTest s = true) ∧
    (semverTest s = false → s ≠ "-h" → s ≠ "--help" →
      (run [s] ws git).exitCode = 1 ∧ writesOf (run [s] ws git) = []) ∧
    ((s = "-h" ∨ s = "--help") →
      (run [s] ws git).exitCode = 0 ∧ writesOf (run [s] ws git) = []) := by
  by_cases hv : semverTest s = true
  · have hA := argHandle_single_valid s hv
    refine ⟨⟨fun _ => hv, fun _ => ?_⟩, ?_, ?_⟩
    · simp only [run, hA]
      by_cases hd : git.dirty.isEmpty = true
      · by_cases ht : ("v" ++ s) ∈ git.tags
        · simp [hd, ht]
        · simpa [hd, ht] using gitStatus_mem_runChecked s ws git
      · have hd' : git.dirty.isEmpty = false := by simpa using hd
        simp [hd']
    · intro hf
      rw [hv] at hf
      exact absurd hf (by decide)
    · rintro (rfl | rfl)
      · exact absurd hv (by decide)
      · exact absurd hv (by decide)
  · have hv' : semverTest s = false := by simpa using hv
    by_cases hh : s = "-h" ∨ s = "--help"
    · have hA : argHandle [s] = ArgResult.help := by
        rcases hh with rfl | rfl <;> decide
      refine ⟨⟨fun hmem => ?_, fun hsem => ?_⟩, ?_, ?_⟩
      · simp [run, hA] at hmem
      · exact absurd hsem hv
      · intro _ h1 h2
        rcases hh with rfl | rfl
        · exact absurd rfl h1
        · exact absurd rfl h2
      · intro _
        exact ⟨by simp [run, hA], by simp [run, hA, writesOf]⟩
    · push_neg at hh
      have hA : argHandle [s] = ArgResult.missing ∨ argHandle [s] = ArgResult.invalid s := by
        by_cases hs : s = ""
        · left
          rw [hs]
          decide
        · right
          simp [argHandle, Ne.symm hh.1, Ne.symm hh.2, hs, hv']
      rcases hA with hA | hA
      · refine ⟨⟨fun hmem => ?_, fun hsem => absurd hsem hv⟩, ?_, ?_⟩
        · simp [run, hA] at hmem
        · intro _ _ _
          exact ⟨by simp [run, hA], by simp [run, hA, writesOf]⟩
        · rintro (rfl | rfl)
          · exact absurd rfl hh.1
          · exact absurd rfl hh.2
      · refine ⟨⟨fun hmem => ?_, fun hsem => absurd hsem hv⟩, ?_, ?_⟩
        · simp [run, hA] at hmem
        · intro _ _ _
          exact ⟨by simp [run, hA], by simp [run, hA, writesOf]⟩
        · rintro (rfl | rfl)
          · exact absurd rfl hh.1
          · exact absurd rfl hh.2

/-- Witness for the amended C2 at the non-matching argument "1.2". -/
theorem c2_amended_witness :
    semverTest "1.2" = false ∧
    (run ["1.2"] wsA gitA).exitCode = 1 ∧ writesOf (run ["1.2"] wsA gitA) = [] :=
  ⟨by decide,
   (c2_amended "1.2" wsA gitA).2.1 (by decide) (by decide) (by decide)⟩

/-! ### Claim C8 -/

/-- Claim C8: a help flag anywhere in the arguments makes the tool print
the help text and exit 0 having touched nothing; a missing (or empty)
version argument, and a version failing the grammar, each exit 1 with a
message on the error stream and no file writes; and every run whatsoever
exits with code 0 or code 1. -/
theorem c8_exit_codes (args : List String) (ws : Workspace) (git : GitState) :
    ((args.contains "-h" || args.contains "--help") = true →
      (run args ws git).exitCode = 0 ∧ (run args ws git).events = [] ∧
      (run args ws git).out = [helpText] ∧ (run args ws git).fs = ws ∧
      (run args ws git).git = git) ∧
    ((args.contains "-h" || args.contains "--help") = false →
      args.head?.getD "" = "" →
      (run args ws git).exitCode = 1 ∧ (run args ws git).err ≠ [] ∧
      writesOf (run args ws git) = []) ∧
    ((args.contains "-h" || args.contains "--help") = false →
      ∀ w, args.head?.getD "" = w → w ≠ "" → semverTest w = false →
      (run args ws git).exitCode = 1 ∧ (run args ws git).err ≠ [] ∧
      writesOf (run args ws git) = []) ∧
    ((run args ws git).exitCode = 0 ∨ (run args ws git).exitCode = 1) := by
  refine ⟨?_, ?_, ?_, ?_⟩
  · intro hh
    have hA : argHandle args = ArgResult.help := by
      unfold argHandle
      rw [if_pos hh]
    simp [run, hA]
  · intro hh he
    have hA : argHandle args = ArgResult.missing := by
      unfold argHandle
      rw [if_neg (by rw [hh]; exact Bool.false_ne_true), if_pos he]
    simp [run, hA, writesOf, writeOfEvent]
  · intro hh w hw hne hf
    have hA : argHandle args = ArgResult.invalid w := by
      unfold argHandle
      rw [if_neg (by rw [hh]; exact Bool.false_ne_true), hw, if_neg hne,
          if_neg (by rw [hf]; exact Bool.false_ne_true)]
    simp [run, hA, writesOf, writeOfEvent]
  · rcases hA : argHandle args with _ | _ | w | w
    · left; simp [run, hA]
    · right; simp [run, hA]
    · right; simp [run, hA]
    · by_cases hd : git.dirty.isEmpty = true
      · by_cases ht : ("v" ++ w) ∈ git.tags
        · right; simp [run, hA, hd, ht]
        · have hrc : run args ws git = runChecked w ws git := by
            simp [run, hA, hd, ht]
          rw [hrc]
          simp only [runChecked]
          by_cases hadd : gitAddOk (mutatedWs w ws) = true
          · rw [if_neg (by rw [hadd]; decide)]
            by_cases hcm : ((git.dirty ++ (writtenFiles w ws).map Prod.fst).filter
                fun p => (stagedPaths (mutatedWs w ws)).contains p).isEmpty = true
            · rw [if_pos hcm]
              right
              rfl
            · rw [if_neg hcm]
              left
              rfl
          · have hpos : (!gitAddOk (mutatedWs w ws)) = true := by
              rcases Bool.eq_false_or_eq_true (gitAddOk (mutatedWs w ws)) with h | h
              · exact absurd h hadd
              · rw [h]
                rfl
            rw [if_pos hpos]
            right
            rfl
      · have hd' : git.dirty.isEmpty = false := by simpa using hd
        right; simp [run, hA, hd']

/-- Witness for C8 at the help flag. -/
theorem c8_exit_codes_witness :
    (run ["-h"] wsA gitA).exitCode = 0 ∧ (run ["-h"] wsA gitA).events = [] ∧
    (run ["-h"] wsA gitA).out = [helpText] ∧ (run ["-h"] wsA gitA).fs = wsA ∧
    (run ["-h"] wsA gitA).git = gitA :=
  (c8_exit_codes ["-h"] wsA gitA).1 (by decide)

/-! ### Claim C6 -/

theorem stringifyV_obj_ends (d : Manifest) :
    ∃ t, stringifyV 2 0 (JVal.obj d) = t ++ "\x7d" := by
  cases d with
  | nil => exact ⟨"\x7b", by simp [stringifyV]⟩
  | cons p rest =>
    refine ⟨"\x7b\n" ++ stringifyFields 2 1 (p :: rest) ++ "\n" ++ indentStr 0, ?_⟩
    simp [stringifyV]

/-- Exactly one trailing newline: the last character is a newline and
the character before it is not. -/
def oneTrailingNewline (s : String) : Prop :=
  s.data.getLast? = some '\n' ∧ s.data.dropLast.getLast? ≠ some '\n'

theorem stringifyFile_trailing (d : Manifest) : oneTrailingNewline (stringifyFile d) := by
  rcases stringifyV_obj_ends d with ⟨t, ht⟩
  unfold stringifyFile oneTrailingNewline
  rw [ht]
  have hdata : ((t ++ "\x7d") ++ "\n").data = (t.data ++ ['\x7d']) ++ ['\n'] := by
    simp [String.data_append]
  rw [hdata]
  constructor
  · exact List.getLast?_concat _
  · rw [List.dropLast_concat, List.getLast?_concat]
    decide

theorem writesOf_runChecked (v : String) (ws : Workspace) (git : GitState) :
    writesOf (runChecked v ws git) = writtenFiles v ws := by
  simp only [runChecked]
  by_cases hadd : gitAddOk (mutatedWs v ws) = true
  · rw [if_neg (by rw [hadd]; decide)]
    by_cases hcm : ((git.dirty ++ (writtenFiles v ws).map Prod.fst).filter
        fun p => (stagedPaths (mutatedWs v ws)).contains p).isEmpty = true
    · rw [if_pos hcm]
      simp [writesOf, writeEvents, List.filterMap_append, List.filterMap_map,
        writeOfEvent, filterMap_writeOfEvent]
    · rw [if_neg hcm]
      simp [writesOf, writeEvents, List.filterMap_append, List.filterMap_map,
        writeOfEvent, filterMap_writeOfEvent]
  · have hpos : (!gitAddOk (mutatedWs v ws)) = true := by
      rcases Bool.eq_false_or_eq_true (gitAddOk (mutatedWs v ws)) with h | h
      · exact absurd h hadd
      · rw [h]
        rfl
    rw [if_pos hpos]
    simp [writesOf, writeEvents, List.filterMap_append, List.filterMap_map,
      writeOfEvent, filterMap_writeOfEvent]

theorem lookupKey_updatePackageJson_ne (v : String) (d : Manifest) (k : String)
    (hk : k ≠ "version") :
    lookupKey k (updatePackageJson v d) =
      (lookupKey k d).map
        (fun val => if depTypes.contains k then rewriteDepMap v val else val) := by
  unfold updatePackageJson
  rw [lookupKey_rewriteDeps, lookupKey_setKey_ne _ _ _ _ hk]

theorem objKeys_rewriteDepMap (v : String) (es : List (String × JVal)) :
    ∃ es', rewriteDepMap v (JVal.obj es) = JVal.obj es' ∧
      es'.map Prod.fst = es.map Prod.fst := by
  refine ⟨_, rfl, ?_⟩
  rw [List.map_map]
  apply List.map_congr_left
  intro p _
  by_cases h : strStartsWith p.1 internalScope = true
  · simp [h]
  · simp [h]

theorem inner_keys_updatePackageJson (v : String) (d : Manifest) (k : String)
    (es : List (String × JVal)) (hk : k ≠ "version")
    (h : lookupKey k d = some (JVal.obj es)) :
    ∃ es', lookupKey k (updatePackageJson v d) = some (JVal.obj es') ∧
      es'.map Prod.fst = es.map Prod.fst := by
  rw [lookupKey_updatePackageJson_ne v d k hk, h]
  by_cases hc : depTypes.contains k = true
  · rcases objKeys_rewriteDepMap v es with ⟨es', he, hm⟩
    refine ⟨es', ?_, hm⟩
    rw [Option.map_some', if_pos hc, he]
  · refine ⟨es, ?_, rfl⟩
    rw [Option.map_some', if_neg hc]

theorem keys_updatePackageJson (v : String) (d : Manifest) :
    (updatePackageJson v d).map Prod.fst = d.map Prod.fst ∨
      (updatePackageJson v d).map Prod.fst = d.map Prod.fst ++ ["version"] := by
  unfold updatePackageJson
  rw [keys_rewriteDeps]
  exact keys_setKey _ _ _

theorem argHandle_proceed_head (args : List String) (w : String)
    (h : argHandle args = ArgResult.proceed w) : args.head?.getD "" = w := by
  simp only [argHandle] at h
  by_cases h1 : (args.contains "-h" || args.contains "--help") = true
  · rw [if_pos h1] at h
    exact absurd h (by simp)
  · rw [if_neg h1] at h
    by_cases h2 : args.head?.getD "" = ""
    · rw [if_pos h2] at h
      exact absurd h (by simp)
    · rw [if_neg h2] at h
      by_cases h3 : semverTest (args.head?.getD "") = true
      · rw [if_pos h3] at h
        exact ArgResult.proceed.inj h
      · rw [if_neg h3] at h
        exact absurd h (by simp)

/-- Claim C6: a run writes either nothing or exactly the computed
manifest files, and each written file is the 2-space-gap JSON
serialization of the mutated document followed by exactly one newline,
where the mutated document arises from the read document by the version
assignment (root) or the full update (packages and bundle), preserving
the read key order (at most appending a fresh version key at the end)
and preserving every dependency map's key list. -/
theorem c6_serialization (v : String) (ws : Workspace) (git : GitState) :
    (writesOf (run [v] ws git) = [] ∨ writesOf (run [v] ws git) = writtenFiles v ws) ∧
    (∀ pc ∈ writtenFiles v ws, ∃ d d' : Manifest,
      (d' = setKey "version" (JVal.str v) d ∨ d' = updatePackageJson v d) ∧
      pc.2 = stringifyFile d' ∧
      oneTrailingNewline pc.2 ∧
      (d'.map Prod.fst = d.map Prod.fst ∨ d'.map Prod.fst = d.map Prod.fst ++ ["version"]) ∧
      (∀ k es, k ≠ "version" → lookupKey k d = some (JVal.obj es) →
        ∃ es', lookupKey k d' = some (JVal.obj es') ∧
          es'.map Prod.fst = es.map Prod.fst)) := by
  constructor
  · rcases hA : argHandle [v] with _ | _ | w | w
    · left; simp [run, hA, writesOf]
    · left; simp [run, hA, writesOf]
    · left; simp [run, hA, writesOf]
    · have hw : w = v := by
        have h := argHandle_proceed_head [v] w hA
        simpa using h.symm
      subst hw
      by_cases hd : git.dirty.isEmpty = true
      · by_cases ht : ("v" ++ w) ∈ git.tags
        · left; simp [run, hA, hd, ht, writesOf, writeOfEvent]
        · right
          have hrc : run [w] ws git = runChecked w ws git := by
            simp [run, hA, hd, ht]
          rw [hrc]
          exact writesOf_runChecked w ws git
      · have hd' : git.dirty.isEmpty = false := by simpa using hd
        left; simp [run, hA, hd', writesOf, writeOfEvent]
  · intro pc hpc
    unfold writtenFiles at hpc
    rcases List.mem_append.mp hpc with hpc' | hbundle
    · rcases List.mem_append.mp hpc' with hroot | hpkg
      · rcases hr : ws.rootManifest with _ | d
        · rw [hr] at hroot
          simp at hroot
        · rw [hr] at hroot
          simp only [List.mem_singleton] at hroot
          subst hroot
          refine ⟨d, setKey "version" (JVal.str v) d, Or.inl rfl, rfl,
            stringifyFile_trailing _, keys_setKey _ _ _, ?_⟩
          intro k es hk hl
          refine ⟨es, ?_, rfl⟩
          rw [lookupKey_setKey_ne _ _ _ _ hk]
          exact hl
      · rcases List.mem_filterMap.mp hpkg with ⟨e, _, hee⟩
        rcases Option.map_eq_some'.mp hee with ⟨d, _, hpc2⟩
        subst hpc2
        refine ⟨d, updatePackageJson v d, Or.inr rfl, rfl,
          stringifyFile_trailing _, keys_updatePackageJson v d, ?_⟩
        intro k es hk hl
        exact inner_keys_updatePackageJson v d k es hk hl
    · rcases hb : ws.bundleManifest with _ | d
      · rw [hb] at hbundle
        simp at hbundle
      · rw [hb] at hbundle
        simp only [List.mem_singleton] at hbundle
        subst hbundle
        refine ⟨d, updatePackageJson v d, Or.inr rfl, rfl,
          stringifyFile_trailing _, keys_updatePackageJson v d, ?_⟩
        intro k es hk hl
        exact inner_keys_updatePackageJson v d k es hk hl

/-- Witness for C6 at the root manifest file of the concrete workspace. -/
theorem c6_serialization_witness :
    ∃ d d' : Manifest,
      (d' = setKey "version" (JVal.str "2.0.0") d ∨ d' = updatePackageJson "2.0.0" d) ∧
      ("package.json",
        stringifyFile (setKey "version" (JVal.str "2.0.0") rootMan)).2 = stringifyFile d' ∧
      oneTrailingNewline ("package.json",
        stringifyFile (setKey "version" (JVal.str "2.0.0") rootMan)).2 ∧
      (d'.map Prod.fst = d.map Prod.fst ∨ d'.map Prod.fst = d.map Prod.fst ++ ["version"]) ∧
      (∀ k es, k ≠ "version" → lookupKey k d = some (JVal.obj es) →
        ∃ es', lookupKey k d' = some (JVal.obj es') ∧
          es'.map Prod.fst = es.map Prod.fst) :=
  (c6_serialization "2.0.0" wsA gitA).2
    ("package.json", stringifyFile (setKey "version" (JVal.str "2.0.0") rootMan))
    (by simp [writtenFiles, wsA])

/-! ### Claim C9 -/

theorem getElem?_setKey (k : String) (v : JVal) (d : Manifest) (i : Nat) (p : String × JVal)
    (hp : d[i]? = some p) :
    ∃ q, (setKey k v d)[i]? = some q ∧ q.1 = p.1 ∧ (p.1 ≠ k → q = p) := by
  induction d generalizing i with
  | nil => simp at hp
  | cons a d ih =>
    by_cases ha : a.1 = k
    · cases i with
      | zero =>
        have hap : a = p := by simpa using hp
        refine ⟨(k, v), by simp [setKey, ha], ?_, ?_⟩
        · rw [← hap, ha]
        · intro hne
          rw [← hap] at hne
          exact absurd ha hne
      | succ n =>
        have hp' : d[n]? = some p := by simpa using hp
        exact ⟨p, by simp [setKey, ha, hp'], rfl, fun _ => rfl⟩
    · cases i with
      | zero =>
        have hap : a = p := by simpa using hp
        exact ⟨a, by simp [setKey, ha], by rw [hap], fun _ => hap⟩
      | succ n =>
        have hp' : d[n]? = some p := by simpa using hp
        obtain ⟨q, h1, h2, h3⟩ := ih n hp'
        exact ⟨q, by simp [setKey, ha, h1], h2, h3⟩

theorem rewriteDepMap_non_obj (v : String) (x : JVal) (h : ∀ es, x ≠ JVal.obj es) :
    rewriteDepMap v x = x := by
  cases x with
  | obj es => exact absurd rfl (h es)
  | str s => rfl
  | num n => rfl
  | bool b => rfl
  | null => rfl
  | arr xs => rfl

/-- Claim C9: updatePackageJsonFile's mutation is a frame: at every
position of the document the key is preserved; an entry whose key is
neither "version" nor a dependency-map name is written back unchanged; a
dependency-map entry keeps its position and its inner key list, with
every inner entry whose key does not start with the internal prefix
unchanged at its position; and a dependency-map field whose value is not
an object is written back unchanged. -/
theorem c9_frame (v : String) (d : Manifest) (i : Nat) (p : String × JVal)
    (hp : d[i]? = some p) :
    (((updatePackageJson v d)[i]?).map Prod.fst = some p.1) ∧
    (p.1 ≠ "version" → ¬p.1 ∈ depTypes → (updatePackageJson v d)[i]? = some p) ∧
    (p.1 ∈ depTypes → ∀ es, p.2 = JVal.obj es →
      ∃ es', (updatePackageJson v d)[i]? = some (p.1, JVal.obj es') ∧
        es'.map Prod.fst = es.map Prod.fst ∧
        ∀ (j : Nat) (q : String × JVal), es[j]? = some q →
          strStartsWith q.1 internalScope = false → es'[j]? = some q) ∧
    (p.1 ∈ depTypes → (∀ es, p.2 ≠ JVal.obj es) → (updatePackageJson v d)[i]? = some p) := by
  obtain ⟨q, hq1, hq2, hq3⟩ := getElem?_setKey "version" (JVal.str v) d i p hp
  have hup : (updatePackageJson v d)[i]? =
      some (if depTypes.contains q.1 then (q.1, rewriteDepMap v q.2) else q) := by
    unfold updatePackageJson rewriteDeps
    rw [List.getElem?_map, hq1, Option.map_some']
  refine ⟨?_, ?_, ?_, ?_⟩
  · rw [hup]
    by_cases hc : depTypes.contains q.1 = true
    · rw [if_pos hc]
      simp [hq2]
    · rw [if_neg hc]
      simp [hq2]
  · intro hv hdep
    rw [hq3 hv] at hup
    have hc : ¬(depTypes.contains p.1 = true) := fun hc => hdep (by simpa using hc)
    rw [hup, if_neg hc]
  · intro hdep es hes
    have hvne : p.1 ≠ "version" := by
      intro he
      rw [he] at hdep
      exact absurd hdep (by decide)
    rw [hq3 hvne] at hup
    have hc : depTypes.contains p.1 = true := by simpa using hdep
    rw [hup, if_pos hc, hes]
    refine ⟨es.map (fun r =>
      if strStartsWith r.1 internalScope then (r.1, JVal.str ("~" ++ v)) else r),
      by simp [rewriteDepMap], ?_, ?_⟩
    · rw [List.map_map]
      apply List.map_congr_left
      intro r _
      by_cases h : strStartsWith r.1 internalScope = true
      · simp [h]
      · simp [h]
    · intro j q' hj hqs
      rw [List.getElem?_map, hj, Option.map_some']
      simp [hqs]
  · intro hdep hnobj
    have hvne : p.1 ≠ "version" := by
      intro he
      rw [he] at hdep
      exact absurd hdep (by decide)
    rw [hq3 hvne] at hup
    have hc : depTypes.contains p.1 = true := by simpa using hdep
    rw [hup, if_pos hc, rewriteDepMap_non_obj v p.2 hnobj]

/-- Witness for C9: the untouched "name" entry of the concrete root
manifest keeps position and value. -/
theorem c9_frame_witness :
    (updatePackageJson "2.0.0" rootMan)[0]? = some ("name", JVal.str "root") :=
  (c9_frame "2.0.0" rootMan 0 ("name", JVal.str "root") rfl).2.1 (by decide) (by decide)

end UV
